import Mathlib

/-!
Verification of `generate_qr_test_data.py`.

The script builds sample QR-login JSON records and prints five variants
(valid, expired, wrong type, missing fields, invalid tokens).  We embed the
record builder `generate_qr_data`, the driver `main`, and a model of
`json.dumps(..., ensure_ascii=False, indent=2)` / `json.loads`, and prove the
spec's testable properties about them.
-/

mutual

/-- JSON values of the shapes the script produces: strings, integers and
objects.  Objects are ordered key/value lists, mirroring Python dicts, which
preserve insertion order. -/
inductive JVal : Type where
  | str : String → JVal
  | num : Int → JVal
  | obj : JObj → JVal

/-- The entry list of a JSON object. -/
inductive JObj : Type where
  | nil : JObj
  | cons : String → JVal → JObj → JObj

end

/-- Lookup of a key in an object, as Python `d[k]` (read). -/
def JObj.get? : JObj → String → Option JVal
  | .nil, _ => none
  | .cons k v o, key => if k = key then some v else JObj.get? o key

/-- Python `d[k] = v`: overwrite the value of an existing key in place
(keeping its position), or append the key at the end when absent. -/
def JObj.set : JObj → String → JVal → JObj
  | .nil, key, v => .cons key v .nil
  | .cons k v0 o, key, v =>
      if k = key then .cons k v o else .cons k v0 (JObj.set o key v)

/-- Python `del d[k]`: remove the (unique) binding of `k`. -/
def JObj.delKey : JObj → String → JObj
  | .nil, _ => .nil
  | .cons k v o, key => if k = key then o else .cons k v (JObj.delKey o key)

/-- The keys of an object, in insertion order. -/
def JObj.keys : JObj → List String
  | .nil => []
  | .cons k _ o => k :: JObj.keys o

/-- Field read on a JSON value (objects only). -/
def JVal.get? : JVal → String → Option JVal
  | .obj o, key => o.get? key
  | _, _ => none

/-- Field write on a JSON value (objects only), as the driver's
`d["timestamp"] = ...` / `d["type"] = ...` statements. -/
def JVal.setKey : JVal → String → JVal → JVal
  | .obj o, key, v => .obj (o.set key v)
  | j, _, _ => j

/-- Field deletion on a JSON value (objects only). -/
def JVal.delField : JVal → String → JVal
  | .obj o, key => .obj (o.delKey key)
  | j, _ => j

/-- Update the value stored under `key` in an object's entry list. -/
def JObj.modifyKey : JObj → String → (JVal → JVal) → JObj
  | .nil, _, _ => .nil
  | .cons k v o, key, f =>
      if k = key then .cons k (f v) o else .cons k v (JObj.modifyKey o key f)

/-- Update the value stored under `key` (objects only); models an in-place
mutation of the nested dict reached by `d[key]`. -/
def JVal.modifyKey : JVal → String → (JVal → JVal) → JVal
  | .obj o, key, f => .obj (o.modifyKey key f)
  | j, _, _ => j

/-- Read of the sub-field `k` of the nested `data` object. -/
def JVal.dataField (j : JVal) (k : String) : Option JVal :=
  match j.get? "data" with
  | some d => d.get? k
  | none => none

/-- Default `gotify_url` argument of `generate_qr_data`. -/
def default_gotify_url : String := "http://111.228.1.24:2345"

/-- Default `app_token` argument of `generate_qr_data`. -/
def default_app_token : String := "A1B2C3D4E5F6G7H8"

/-- Default `client_token` argument of `generate_qr_data`. -/
def default_client_token : String := "X9Y8Z7W6V5U4T3S2"

/-- Default `server_name` argument of `generate_qr_data`. -/
def default_server_name : String := "测试服务器"

/-- The record builder.  `now` stands for the value of
`int(time.time() * 1000)` read at the moment of the call; everything else is
literal construction, exactly as in the source. -/
def generate_qr_data (now : Int)
    (gotify_url app_token client_token server_name : String) : JVal :=
  .obj (.cons "version" (.str "1.0")
    (.cons "type" (.str "droplink_qr_login")
      (.cons "timestamp" (.num now)
        (.cons "data"
          (.obj (.cons "gotifyServerUrl" (.str gotify_url)
            (.cons "appToken" (.str app_token)
              (.cons "clientToken" (.str client_token)
                (.cons "serverName" (.str server_name) .nil)))))
          .nil))))

/-- `generate_qr_data()` called with every argument omitted, i.e. all four
keyword defaults in force. -/
def generate_qr_data_default (now : Int) : JVal :=
  generate_qr_data now default_gotify_url default_app_token
    default_client_token default_server_name

/-! ### Serialization: a model of `json.dumps(..., ensure_ascii=False, indent=2)` -/

/-- The opening-brace character. -/
def lbrace : Char := Char.ofNat 123

/-- The closing-brace character. -/
def rbrace : Char := Char.ofNat 125

/-- `n` spaces of indentation. -/
def spaces (n : Nat) : List Char := List.replicate n ' '

/-- Hexadecimal digit character (lower case). -/
def hexDigit (n : Nat) : Char :=
  if n < 10 then Char.ofNat (48 + n) else Char.ofNat (87 + n)

/-- Escaping of one character inside a JSON string, as `json.dumps` with
`ensure_ascii=False`: only the quote, the backslash and control characters
are escaped; everything else (including non-ASCII) passes through. -/
def escChar (c : Char) : List Char :=
  if c.toNat = 34 then ['\\', '"']
  else if c.toNat = 92 then ['\\', '\\']
  else if c.toNat < 32 then
    if c.toNat = 8 then ['\\', 'b']
    else if c.toNat = 9 then ['\\', 't']
    else if c.toNat = 10 then ['\\', 'n']
    else if c.toNat = 12 then ['\\', 'f']
    else if c.toNat = 13 then ['\\', 'r']
    else ['\\', 'u', '0', '0', hexDigit (c.toNat / 16), hexDigit (c.toNat % 16)]
  else [c]

/-- Escaping of a whole string body. -/
def escStr : List Char → List Char
  | [] => []
  | c :: cs => escChar c ++ escStr cs

/-- Decimal digits of a natural number, most significant first. -/
def natDigits (n : Nat) : List Char :=
  if _h : n < 10 then [Char.ofNat (48 + n)]
  else natDigits (n / 10) ++ [Char.ofNat (48 + n % 10)]
decreasing_by exact Nat.div_lt_self (by omega) (by omega)

/-- Decimal rendering of an integer, as Python `str(int)`. -/
def intChars (i : Int) : List Char :=
  if i < 0 then '-' :: natDigits (-i).toNat else natDigits i.toNat

mutual

/-- Serialization of a value whose enclosing indentation is `ind`. -/
def serVal (ind : Nat) : JVal → List Char
  | .str s => '"' :: escStr s.toList ++ ['"']
  | .num i => intChars i
  | .obj .nil => [lbrace, rbrace]
  | .obj (.cons k v o) =>
      lbrace :: '\n' :: spaces (ind + 2) ++
        serEntries (ind + 2) (.cons k v o) ++ '\n' :: spaces ind ++ [rbrace]

/-- Serialization of a nonempty entry list at indentation `ind`; the leading
newline-plus-indent of the first entry is emitted by the caller, and the
separator `",\n" ++ indent` is emitted between entries. -/
def serEntries (ind : Nat) : JObj → List Char
  | .nil => []
  | .cons k v .nil =>
      '"' :: escStr k.toList ++ '"' :: ':' :: ' ' :: serVal ind v
  | .cons k v (.cons k2 v2 o) =>
      '"' :: escStr k.toList ++ '"' :: ':' :: ' ' :: serVal ind v ++
        ',' :: '\n' :: spaces ind ++ serEntries ind (.cons k2 v2 o)

end

/-- `json.dumps(j, ensure_ascii=False, indent=2)`. -/
def dumps (j : JVal) : String := (serVal 0 j).asString

/-! ### The driver `main` -/

/-- The five records the driver builds, parameterized by the wall clock:
`clock i` is the value of the `i`-th `int(time.time() * 1000)` read the
script performs (reads 0 and 2..5 happen inside the five builder calls,
read 1 computes `expired_timestamp`). -/
def record1 (clock : Nat → Int) : JVal :=
  generate_qr_data_default (clock 0)

/-- The "expired" variant: a fresh default record whose `timestamp` is then
overwritten with `expired_timestamp = int(time.time()*1000) - 6*60*1000`. -/
def record2 (clock : Nat → Int) : JVal :=
  (generate_qr_data_default (clock 2)).setKey "timestamp"
    (.num (clock 1 - 6 * 60 * 1000))

/-- The "wrong type" variant: a fresh default record whose `type` is then
overwritten with `"other_app_qr_code"`. -/
def record3 (clock : Nat → Int) : JVal :=
  (generate_qr_data_default (clock 3)).setKey "type" (.str "other_app_qr_code")

/-- The "missing fields" variant: a fresh default record whose nested `data`
dict loses `appToken` and then `clientToken`. -/
def record4 (clock : Nat → Int) : JVal :=
  (((generate_qr_data_default (clock 4)).modifyKey "data"
      (fun d => d.delField "appToken")).modifyKey "data"
    (fun d => d.delField "clientToken"))

/-- The "invalid token" variant: the builder called with substitute token
strings (the other two arguments keep their defaults). -/
def record5 (clock : Nat → Int) : JVal :=
  generate_qr_data (clock 5) default_gotify_url "INVALID_APP_TOKEN"
    "INVALID_CLIENT_TOKEN" default_server_name

/-- The five records, in print order. -/
def mainRecords (clock : Nat → Int) : List JVal :=
  [record1 clock, record2 clock, record3 clock, record4 clock, record5 clock]

/-- A row of sixty equals signs. -/
def sep60 : String := (List.replicate 60 '=').asString

/-- A row of sixty dashes. -/
def dash60 : String := (List.replicate 60 '-').asString

/-- The driver, modelled as the list of lines it prints (each `print(x)`
call contributes the line `x`, `print()` contributes an empty line); the
Python function itself returns `None`, so console output is its only
observable behaviour.  The `let` sequence mirrors the source statements in
order, including the order of the six clock reads. -/
def mainLines (clock : Nat → Int) : List String :=
  let valid_data := generate_qr_data_default (clock 0)
  let expired_timestamp := clock 1 - 6 * 60 * 1000
  let expired_data :=
    (generate_qr_data_default (clock 2)).setKey "timestamp"
      (.num expired_timestamp)
  let wrong_type_data :=
    (generate_qr_data_default (clock 3)).setKey "type"
      (.str "other_app_qr_code")
  let missing_fields_data :=
    (((generate_qr_data_default (clock 4)).modifyKey "data"
        (fun d => d.delField "appToken")).modifyKey "data"
      (fun d => d.delField "clientToken"))
  let invalid_token_data :=
    generate_qr_data (clock 5) default_gotify_url "INVALID_APP_TOKEN"
      "INVALID_CLIENT_TOKEN" default_server_name
  [sep60,
   "Droplink 二维码登录测试数据生成器",
   sep60,
   "",
   "【1】有效的二维码数据（5 分钟有效期）：",
   dash60,
   dumps valid_data,
   "",
   "【2】过期的二维码数据（用于测试过期验证）：",
   dash60,
   dumps expired_data,
   "",
   "【3】错误类型的二维码数据（用于测试类型验证）：",
   dash60,
   dumps wrong_type_data,
   "",
   "【4】缺少必需字段的二维码数据（用于测试字段验证）：",
   dash60,
   dumps missing_fields_data,
   "",
   "【5】无效 Token 的二维码数据（用于测试 Token 验证）：",
   dash60,
   dumps invalid_token_data,
   "",
   sep60,
   "提示：",
   "1. 复制上面的 JSON 数据到在线二维码生成器",
   "2. 推荐使用：https://www.qr-code-generator.com/",
   "3. 或使用：https://www.qrcode-monkey.com/",
   "4. 生成二维码后，使用 Droplink 应用扫描测试",
   sep60]

/-! ### Parsing: a model of `json.loads` on the value forms above -/

/-- JSON whitespace. -/
def isWs (c : Char) : Bool :=
  c = ' ' || c = '\n' || c = '\t' || c = '\r'

/-- Skip leading whitespace. -/
def skipWs : List Char → List Char
  | [] => []
  | c :: cs => if isWs c then skipWs cs else c :: cs

/-- Decimal digit characters. -/
def isDigit (c : Char) : Bool :=
  decide (48 ≤ c.toNat) && decide (c.toNat ≤ 57)

/-- Split off the longest prefix of digit characters. -/
def takeDigits : List Char → List Char × List Char
  | [] => ([], [])
  | c :: cs =>
      if isDigit c then
        let p := takeDigits cs
        (c :: p.1, p.2)
      else ([], c :: cs)

/-- Accumulate the value of a digit string, most significant first. -/
def digitsValFrom (acc : Nat) : List Char → Nat
  | [] => acc
  | c :: cs => digitsValFrom (10 * acc + (c.toNat - 48)) cs

/-- Numeric value of a digit string. -/
def digitsVal (ds : List Char) : Nat := digitsValFrom 0 ds

/-- Resolution of a character following a backslash in a JSON string. -/
def unescape (c : Char) : Option Char :=
  if c = '"' then some '"'
  else if c = '\\' then some '\\'
  else if c = '/' then some '/'
  else if c = 'n' then some '\n'
  else if c = 't' then some '\t'
  else if c = 'r' then some '\r'
  else if c = 'b' then some (Char.ofNat 8)
  else if c = 'f' then some (Char.ofNat 12)
  else none

/-- Parse the body of a JSON string after the opening quote, up to and
including the closing quote; returns the decoded body and the remainder. -/
def parseStr : List Char → Option (List Char × List Char)
  | [] => none
  | c :: cs =>
      if c = '"' then some ([], cs)
      else if c = '\\' then
        match cs with
        | [] => none
        | e :: cs2 =>
            match unescape e with
            | some d =>
                match parseStr cs2 with
                | some p => some (d :: p.1, p.2)
                | none => none
            | none => none
      else
        match parseStr cs with
        | some p => some (c :: p.1, p.2)
        | none => none

mutual

/-- Parse one JSON value (string, integer, or object), skipping leading
whitespace; `fuel` bounds the recursion depth through nested values. -/
def parseVal : Nat → List Char → Option (JVal × List Char)
  | 0, _ => none
  | fuel + 1, input =>
      match skipWs input with
      | [] => none
      | c :: cs =>
          if c = '"' then
            match parseStr cs with
            | some p => some (.str p.1.asString, p.2)
            | none => none
          else if c = lbrace then
            match skipWs cs with
            | [] => none
            | d :: ds =>
                if d = rbrace then some (.obj .nil, ds)
                else
                  match parseEntries fuel (d :: ds) with
                  | some p => some (.obj p.1, p.2)
                  | none => none
          else if c = '-' then
            match takeDigits cs with
            | ([], _) => none
            | (ds, r) => some (.num (-(digitsVal ds : Int)), r)
          else if isDigit c then
            match takeDigits (c :: cs) with
            | (ds, r) => some (.num (digitsVal ds : Int), r)
          else none

/-- Parse a nonempty sequence of `"key": value` entries, starting at the
opening quote of the first key, up to and including the closing brace of the
enclosing object. -/
def parseEntries : Nat → List Char → Option (JObj × List Char)
  | 0, _ => none
  | fuel + 1, input =>
      match input with
      | [] => none
      | c :: cs =>
          if c = '"' then
            match parseStr cs with
            | none => none
            | some pk =>
                match skipWs pk.2 with
                | [] => none
                | c2 :: r2 =>
                    if c2 = ':' then
                      match parseVal fuel (skipWs r2) with
                      | none => none
                      | some pv =>
                          match skipWs pv.2 with
                          | [] => none
                          | c3 :: r4 =>
                              if c3 = ',' then
                                match parseEntries fuel (skipWs r4) with
                                | some po =>
                                    some (.cons pk.1.asString pv.1 po.1, po.2)
                                | none => none
                              else if c3 = rbrace then
                                some (.cons pk.1.asString pv.1 .nil, r4)
                              else none
                    else none
          else none

end

/-- `json.loads`: parse a complete document, requiring only trailing
whitespace after the value. -/
def loads (s : String) : Option JVal :=
  match parseVal (s.toList.length + 1) s.toList with
  | some p => if skipWs p.2 = [] then some p.1 else none
  | none => none

/-! ### Well-formedness and size measures -/

/-- Characters that serialization passes through unescaped: not the quote,
not the backslash, not a control character. -/
def plainB (c : Char) : Bool :=
  !(decide (c.toNat = 34)) && !(decide (c.toNat = 92)) && decide (32 ≤ c.toNat)

mutual

/-- Every string literal in the value consists of plain characters (true of
every string the script ever builds). -/
def wfV : JVal → Bool
  | .str s => s.toList.all plainB
  | .num _ => true
  | .obj o => wfO o

/-- Well-formedness of an entry list. -/
def wfO : JObj → Bool
  | .nil => true
  | .cons k v o => k.toList.all plainB && wfV v && wfO o

end

mutual

/-- Parser-fuel measure of a value. -/
def sizeV : JVal → Nat
  | .str _ => 1
  | .num _ => 1
  | .obj o => 1 + sizeO o

/-- Parser-fuel measure of an entry list. -/
def sizeO : JObj → Nat
  | .nil => 1
  | .cons _ v o => 1 + sizeV v + sizeO o

end

/-- Head test used to state that the remainder after a number does not start
with another digit. -/
def noDigitHeadB : List Char → Bool
  | [] => true
  | c :: _ => !(isDigit c)

/-- The tail that `serEntries` appends after the first entry. -/
def entriesTail (ind : Nat) : JObj → List Char
  | .nil => []
  | .cons k v o => ',' :: '\n' :: spaces ind ++ serEntries ind (.cons k v o)

/-- The top-level key list of a record (empty for non-objects). -/
def JVal.topKeys : JVal → List String
  | .obj o => o.keys
  | _ => []

/-! ### Basic lemmas about characters, whitespace and digits -/

theorem asString_toList (s : String) : s.toList.asString = s := rfl

theorem skipWs_not_ws {c : Char} (h : isWs c = false) (l : List Char) :
    skipWs (c :: l) = c :: l := by
  simp [skipWs, h]

theorem skipWs_ws {c : Char} (h : isWs c = true) (l : List Char) :
    skipWs (c :: l) = skipWs l := by
  simp [skipWs, h]

theorem skipWs_spaces (n : Nat) (l : List Char) :
    skipWs (spaces n ++ l) = skipWs l := by
  induction n with
  | zero => rfl
  | succ n ih =>
      rw [spaces, List.replicate_succ, List.cons_append, skipWs_ws (by decide)]
      exact ih

theorem isWs_of_33_le {c : Char} (h : 33 ≤ c.toNat) : isWs c = false := by
  simp only [isWs, Bool.or_eq_false_iff, decide_eq_false_iff_not]
  refine ⟨⟨⟨?_, ?_⟩, ?_⟩, ?_⟩ <;> intro he <;> rw [he] at h <;>
    exact absurd h (by decide)

theorem isDigit_iff {c : Char} :
    isDigit c = true ↔ 48 ≤ c.toNat ∧ c.toNat ≤ 57 := by
  simp [isDigit]

theorem plainB_iff {c : Char} :
    plainB c = true ↔ c.toNat ≠ 34 ∧ c.toNat ≠ 92 ∧ 32 ≤ c.toNat := by
  simp [plainB, and_assoc]

theorem plainB_ne_quote {c : Char} (h : plainB c = true) : c ≠ '"' := by
  intro he; rw [he] at h; exact absurd h (by decide)

theorem plainB_ne_backslash {c : Char} (h : plainB c = true) : c ≠ '\\' := by
  intro he; rw [he] at h; exact absurd h (by decide)

theorem escChar_plain {c : Char} (h : plainB c = true) : escChar c = [c] := by
  obtain ⟨h1, h2, h3⟩ := plainB_iff.mp h
  simp [escChar, h1, h2, show ¬ c.toNat < 32 by omega]

theorem escStr_plain {l : List Char} (h : ∀ c ∈ l, plainB c = true) :
    escStr l = l := by
  induction l with
  | nil => rfl
  | cons c cs ih =>
      rw [escStr, escChar_plain (h c (by simp)),
        ih (fun d hd => h d (by simp [hd]))]
      rfl

theorem parseStr_plain {l : List Char} (h : ∀ c ∈ l, plainB c = true)
    (r : List Char) : parseStr (l ++ '"' :: r) = some (l, r) := by
  induction l with
  | nil => rw [List.nil_append, parseStr.eq_def]; simp
  | cons c cs ih =>
      have hc := h c (by simp)
      rw [List.cons_append, parseStr.eq_def]
      simp only [plainB_ne_quote hc, plainB_ne_backslash hc, if_false,
        ih (fun d hd => h d (by simp [hd]))]

theorem isDigit_ofNat_48 {n : Nat} (h : n < 10) :
    isDigit (Char.ofNat (48 + n)) = true := by
  interval_cases n <;> decide

theorem toNat_sub_48_ofNat {n : Nat} (h : n < 10) :
    (Char.ofNat (48 + n)).toNat - 48 = n := by
  interval_cases n <;> decide

theorem natDigits_ne_nil (n : Nat) : natDigits n ≠ [] := by
  rw [natDigits]
  split <;> simp

theorem natDigits_digits (n : Nat) : ∀ c ∈ natDigits n, isDigit c = true := by
  induction n using Nat.strong_induction_on with
  | _ n ih =>
      rw [natDigits]
      split
      · next h =>
          intro c hc
          rw [List.mem_singleton] at hc
          rw [hc]
          exact isDigit_ofNat_48 h
      · next h =>
          intro c hc
          rw [List.mem_append] at hc
          rcases hc with hc | hc
          · exact ih (n / 10) (Nat.div_lt_self (by omega) (by omega)) c hc
          · rw [List.mem_singleton] at hc
            rw [hc]
            exact isDigit_ofNat_48 (Nat.mod_lt n (by omega))

theorem digitsValFrom_nil (acc : Nat) : digitsValFrom acc [] = acc := rfl

theorem digitsValFrom_cons (acc : Nat) (d : Char) (ds : List Char) :
    digitsValFrom acc (d :: ds) =
      digitsValFrom (10 * acc + (d.toNat - 48)) ds := rfl

theorem digitsValFrom_append (l : List Char) (c : Char) : ∀ acc : Nat,
    digitsValFrom acc (l ++ [c]) = 10 * digitsValFrom acc l + (c.toNat - 48) := by
  induction l with
  | nil => intro acc; rfl
  | cons d ds ih =>
      intro acc
      rw [List.cons_append, digitsValFrom_cons, digitsValFrom_cons, ih]

theorem digitsValFrom_natDigits (n : Nat) : ∀ acc : Nat,
    digitsValFrom acc (natDigits n) =
      acc * 10 ^ (natDigits n).length + n := by
  induction n using Nat.strong_induction_on with
  | _ n ih =>
      intro acc
      rw [natDigits]
      split
      · next h =>
          rw [digitsValFrom_cons, digitsValFrom_nil, toNat_sub_48_ofNat h]
          simp
          ring
      · next h =>
          rw [digitsValFrom_append,
            ih (n / 10) (Nat.div_lt_self (by omega) (by omega)) acc,
            toNat_sub_48_ofNat (Nat.mod_lt n (by omega)),
            List.length_append, List.length_singleton, pow_succ]
          have hdm : 10 * (n / 10) + n % 10 = n := Nat.div_add_mod n 10
          set p := 10 ^ (natDigits (n / 10)).length with hp
          ring_nf
          omega

theorem digitsVal_natDigits (n : Nat) : digitsVal (natDigits n) = n := by
  rw [digitsVal, digitsValFrom_natDigits]
  simp

theorem takeDigits_append {ds : List Char} (h : ∀ c ∈ ds, isDigit c = true)
    {r : List Char} (hr : noDigitHeadB r = true) :
    takeDigits (ds ++ r) = (ds, r) := by
  induction ds with
  | nil =>
      cases r with
      | nil => rfl
      | cons c cs =>
          rw [noDigitHeadB, Bool.not_eq_true'] at hr
          rw [List.nil_append, takeDigits, hr]
          simp
  | cons c cs ih =>
      rw [List.cons_append, takeDigits, h c (by simp),
        ih (fun d hd => h d (by simp [hd]))]
      simp

theorem sizeV_pos (j : JVal) : 1 ≤ sizeV j := by
  cases j <;> simp [sizeV]

theorem sizeO_pos (o : JObj) : 1 ≤ sizeO o := by
  cases o with
  | nil => simp [sizeO]
  | cons k v o2 => simp [sizeO]; omega

theorem serEntries_cons (ind : Nat) (k : String) (v : JVal) (o : JObj) :
    serEntries ind (.cons k v o) =
      '"' :: escStr k.toList ++ '"' :: ':' :: ' ' :: serVal ind v ++
        entriesTail ind o := by
  cases o with
  | nil => rw [serEntries, entriesTail]; simp
  | cons k2 v2 o2 => rw [serEntries, entriesTail]; simp

theorem skipWs_serVal (ind : Nat) (j : JVal) (l : List Char) :
    skipWs (serVal ind j ++ l) = serVal ind j ++ l := by
  cases j with
  | str s => rw [serVal]; exact skipWs_not_ws (by decide) _
  | num i =>
      rw [serVal, intChars]
      split
      · rw [List.cons_append]
        exact skipWs_not_ws (by decide) _
      · cases hnd : natDigits i.toNat with
        | nil => exact absurd hnd (natDigits_ne_nil _)
        | cons c t =>
            have hc : isDigit c = true :=
              natDigits_digits i.toNat c (by rw [hnd]; simp)
            rw [List.cons_append]
            exact skipWs_not_ws
              (isWs_of_33_le (by have := isDigit_iff.mp hc; omega)) _
  | obj o =>
      cases o with
      | nil => rw [serVal]; exact skipWs_not_ws (by decide) _
      | cons k v o2 =>
          rw [serVal, List.cons_append]
          exact skipWs_not_ws (by decide) _

theorem skipWs_serEntries_cons (ind : Nat) (k : String) (v : JVal) (o : JObj)
    (l : List Char) :
    skipWs (serEntries ind (.cons k v o) ++ l) =
      serEntries ind (.cons k v o) ++ l := by
  rw [serEntries_cons, List.cons_append]
  exact skipWs_not_ws (by decide) _

/-! ### Round-trip: parsing inverts serialization on well-formed values -/

theorem parseVal_succ (fuel : Nat) (input : List Char) : parseVal (fuel + 1) input =
  (match skipWs input with
  | [] => none
  | c :: cs =>
      if c = '"' then
        match parseStr cs with
        | some p => some (.str p.1.asString, p.2)
        | none => none
      else if c = lbrace then
        match skipWs cs with
        | [] => none
        | d :: ds =>
            if d = rbrace then some (.obj .nil, ds)
            else
              match parseEntries fuel (d :: ds) with
              | some p => some (.obj p.1, p.2)
              | none => none
      else if c = '-' then
        match takeDigits cs with
        | ([], _) => none
        | (ds, r) => some (.num (-(digitsVal ds : Int)), r)
      else if isDigit c then
        match takeDigits (c :: cs) with
        | (ds, r) => some (.num (digitsVal ds : Int), r)
      else none) := rfl

theorem valNum (fuel ind : Nat) (i : Int) (rest : List Char)
    (hr : noDigitHeadB rest = true) :
    parseVal (fuel + 1) (serVal ind (.num i) ++ rest) = some (.num i, rest) := by
  show parseVal (fuel + 1) (intChars i ++ rest) = some (.num i, rest)
  rw [intChars]
  split
  · next hneg =>
      cases hnd : natDigits (-i).toNat with
      | nil => exact absurd hnd (natDigits_ne_nil _)
      | cons c t =>
          have htd : takeDigits (c :: (t ++ rest)) = (c :: t, rest) := by
            rw [← List.cons_append, ← hnd]
            exact takeDigits_append (natDigits_digits _) hr
          have hval : digitsVal (c :: t) = (-i).toNat := by
            rw [← hnd]; exact digitsVal_natDigits _
          rw [List.cons_append, parseVal_succ, skipWs_not_ws (by decide)]
          have hlb : ¬(('-' : Char) = lbrace) := by decide
          simp [hlb, htd, hval]
          omega
  · next hpos =>
      cases hnd : natDigits i.toNat with
      | nil => exact absurd hnd (natDigits_ne_nil _)
      | cons c t =>
          have hdig : ∀ d ∈ c :: t, isDigit d = true := by
            rw [← hnd]; exact natDigits_digits _
          have hc : isDigit c = true := hdig c (by simp)
          have hq : ¬(c = '"') := by
            intro he; rw [he] at hc; exact absurd hc (by decide)
          have hl : ¬(c = lbrace) := by
            intro he; rw [he] at hc; exact absurd hc (by decide)
          have hm : ¬(c = '-') := by
            intro he; rw [he] at hc; exact absurd hc (by decide)
          have htd : takeDigits (c :: (t ++ rest)) = (c :: t, rest) := by
            rw [← List.cons_append]
            exact takeDigits_append hdig hr
          have hval : digitsVal (c :: t) = i.toNat := by
            rw [← hnd]; exact digitsVal_natDigits _
          rw [List.cons_append, parseVal_succ,
            skipWs_not_ws (isWs_of_33_le (by have := isDigit_iff.mp hc; omega))]
          simp [hq, hl, hm, hc, htd, hval]
          omega

theorem valStr (fuel ind : Nat) (s : String) (rest : List Char)
    (hwf : wfV (.str s) = true) :
    parseVal (fuel + 1) (serVal ind (.str s) ++ rest) = some (.str s, rest) := by
  have hplain : ∀ c ∈ s.toList, plainB c = true :=
    fun c hc => List.all_eq_true.mp hwf c hc
  have hshape : serVal ind (.str s) ++ rest =
      '"' :: (escStr s.toList ++ '"' :: rest) := by
    show ('"' :: escStr s.toList ++ ['"']) ++ rest = _
    simp
  rw [hshape, parseVal_succ, skipWs_not_ws (by decide), escStr_plain hplain]
  simp only [parseStr_plain hplain, asString_toList, if_pos]

theorem parseEntries_succ (fuel : Nat) (input : List Char) :
    parseEntries (fuel + 1) input =
  (match input with
  | [] => none
  | c :: cs =>
      if c = '"' then
        match parseStr cs with
        | none => none
        | some pk =>
            match skipWs pk.2 with
            | [] => none
            | c2 :: r2 =>
                if c2 = ':' then
                  match parseVal fuel (skipWs r2) with
                  | none => none
                  | some pv =>
                      match skipWs pv.2 with
                      | [] => none
                      | c3 :: r4 =>
                          if c3 = ',' then
                            match parseEntries fuel (skipWs r4) with
                            | some po =>
                                some (.cons pk.1.asString pv.1 po.1, po.2)
                            | none => none
                          else if c3 = rbrace then
                            some (.cons pk.1.asString pv.1 .nil, r4)
                          else none
                else none
  else none) := rfl

theorem noDigitHeadB_cons (c : Char) (l : List Char) :
    noDigitHeadB (c :: l) = !(isDigit c) := rfl

theorem valObjNil (fuel ind : Nat) (rest : List Char) :
    parseVal (fuel + 1) (serVal ind (.obj .nil) ++ rest) =
      some (.obj .nil, rest) := by
  show parseVal (fuel + 1) ([lbrace, rbrace] ++ rest) = some (.obj .nil, rest)
  rw [List.cons_append, List.cons_append, parseVal_succ,
    skipWs_not_ws (by decide)]
  have h1 : ¬(lbrace = '"') := by decide
  have h2 : isWs rbrace = false := by decide
  simp [h1, skipWs_not_ws h2]

theorem serEntries_cons_nil (ind : Nat) (k : String) (v : JVal) :
    serEntries ind (.cons k v .nil) =
      '"' :: escStr k.toList ++ '"' :: ':' :: ' ' :: serVal ind v := rfl

theorem serEntries_cons_cons (ind : Nat) (k : String) (v : JVal) (k2 : String)
    (v2 : JVal) (o2 : JObj) :
    serEntries ind (.cons k v (.cons k2 v2 o2)) =
      '"' :: escStr k.toList ++ '"' :: ':' :: ' ' :: serVal ind v ++
        ',' :: '\n' :: spaces ind ++ serEntries ind (.cons k2 v2 o2) := rfl

theorem valObjCons (fuel ind : Nat) (k : String) (v : JVal) (o : JObj)
    (rest : List Char)
    (hwf : wfV (.obj (.cons k v o)) = true)
    (hs : sizeV (.obj (.cons k v o)) ≤ fuel + 1)
    (ihE : ∀ (ind2 n : Nat) (k2 : String) (v2 : JVal) (o2 : JObj)
        (r2 : List Char),
        wfO (.cons k2 v2 o2) = true → sizeO (.cons k2 v2 o2) ≤ fuel →
        parseEntries fuel
          (serEntries ind2 (.cons k2 v2 o2) ++
            ('\n' :: (spaces n ++ (rbrace :: r2))))
          = some (.cons k2 v2 o2, r2)) :
    parseVal (fuel + 1) (serVal ind (.obj (.cons k v o)) ++ rest) =
      some (.obj (.cons k v o), rest) := by
  have hshape : serVal ind (.obj (.cons k v o)) ++ rest =
      lbrace :: ('\n' :: (spaces (ind + 2) ++
        (serEntries (ind + 2) (.cons k v o) ++
          ('\n' :: (spaces ind ++ (rbrace :: rest)))))) := by
    show (lbrace :: '\n' :: spaces (ind + 2) ++ serEntries (ind + 2) (.cons k v o)
        ++ '\n' :: spaces ind ++ [rbrace]) ++ rest = _
    simp
  have hskip : skipWs ('\n' :: (spaces (ind + 2) ++
      (serEntries (ind + 2) (.cons k v o) ++
        ('\n' :: (spaces ind ++ (rbrace :: rest)))))) =
      serEntries (ind + 2) (.cons k v o) ++
        ('\n' :: (spaces ind ++ (rbrace :: rest))) := by
    rw [skipWs_ws (by decide), skipWs_spaces, skipWs_serEntries_cons]
  have hhead : serEntries (ind + 2) (.cons k v o) ++
      ('\n' :: (spaces ind ++ (rbrace :: rest))) =
      '"' :: (escStr k.toList ++ ('"' :: (':' :: (' ' :: (serVal (ind + 2) v ++
        (entriesTail (ind + 2) o ++ ('\n' :: (spaces ind ++ (rbrace :: rest)))))))))
      := by
    rw [serEntries_cons]; simp
  have hE := ihE (ind + 2) ind k v o rest hwf
    (by have he : sizeV (.obj (.cons k v o)) = 1 + sizeO (.cons k v o) := rfl
        omega)
  rw [hhead] at hE
  have h1 : ¬(lbrace = '"') := by decide
  have hq : ¬(('"' : Char) = rbrace) := by decide
  rw [hshape, parseVal_succ, skipWs_not_ws (by decide)]
  simp only [if_neg h1, if_pos (rfl : lbrace = lbrace)]
  rw [hskip, hhead]
  simp only [if_neg hq, hE, if_true]

theorem entStep (fuel ind : Nat) (k : String) (v : JVal) (o : JObj) (n : Nat)
    (rest : List Char)
    (hwf : wfO (.cons k v o) = true) (hs : sizeO (.cons k v o) ≤ fuel + 1)
    (ihV : ∀ (ind2 : Nat) (j : JVal) (r2 : List Char), wfV j = true →
        sizeV j ≤ fuel → noDigitHeadB r2 = true →
        parseVal fuel (serVal ind2 j ++ r2) = some (j, r2))
    (ihE : ∀ (ind2 n2 : Nat) (k2 : String) (v2 : JVal) (o2 : JObj)
        (r2 : List Char),
        wfO (.cons k2 v2 o2) = true → sizeO (.cons k2 v2 o2) ≤ fuel →
        parseEntries fuel
          (serEntries ind2 (.cons k2 v2 o2) ++
            ('\n' :: (spaces n2 ++ (rbrace :: r2))))
          = some (.cons k2 v2 o2, r2)) :
    parseEntries (fuel + 1)
      (serEntries ind (.cons k v o) ++ ('\n' :: (spaces n ++ (rbrace :: rest))))
      = some (.cons k v o, rest) := by
  have hand : (k.toList.all plainB && wfV v && wfO o) = true := hwf
  rw [Bool.and_eq_true, Bool.and_eq_true] at hand
  obtain ⟨⟨hk, hv⟩, ho⟩ := hand
  have hplaink : ∀ c ∈ k.toList, plainB c = true :=
    fun c hc => List.all_eq_true.mp hk c hc
  have hsz : 1 + sizeV v + sizeO o ≤ fuel + 1 := hs
  have hcol : ¬((':' : Char) = '"') := by decide
  cases o with
  | nil =>
      have hshape : serEntries ind (.cons k v .nil) ++
          ('\n' :: (spaces n ++ (rbrace :: rest))) =
          '"' :: (escStr k.toList ++ ('"' ::
            (':' :: (' ' :: (serVal ind v ++
              ('\n' :: (spaces n ++ (rbrace :: rest)))))))) := by
        rw [serEntries_cons_nil]; simp
      have hps := parseStr_plain hplaink
        (':' :: (' ' :: (serVal ind v ++ ('\n' :: (spaces n ++ (rbrace :: rest))))))
      have hsv : skipWs (' ' :: (serVal ind v ++
          ('\n' :: (spaces n ++ (rbrace :: rest))))) =
          serVal ind v ++ ('\n' :: (spaces n ++ (rbrace :: rest))) := by
        rw [skipWs_ws (by decide), skipWs_serVal]
      have hV := ihV ind v ('\n' :: (spaces n ++ (rbrace :: rest))) hv
        (by omega) (by rw [noDigitHeadB_cons]; decide)
      have hskT : skipWs ('\n' :: (spaces n ++ (rbrace :: rest))) =
          rbrace :: rest := by
        rw [skipWs_ws (by decide), skipWs_spaces, skipWs_not_ws (by decide)]
      have hrb : ¬(rbrace = ',') := by decide
      rw [hshape, parseEntries_succ]
      simp only [if_pos (rfl : ('"' : Char) = '"'), escStr_plain hplaink, hps,
        skipWs_not_ws (show isWs ':' = false by decide),
        if_pos (rfl : (':' : Char) = ':'), hsv, hV, hskT, if_neg hrb,
        if_pos (rfl : rbrace = rbrace), asString_toList, if_true]
  | cons k2 v2 o2 =>
      have hshape : serEntries ind (.cons k v (.cons k2 v2 o2)) ++
          ('\n' :: (spaces n ++ (rbrace :: rest))) =
          '"' :: (escStr k.toList ++ ('"' ::
            (':' :: (' ' :: (serVal ind v ++
              (',' :: ('\n' :: (spaces ind ++ (serEntries ind (.cons k2 v2 o2) ++
                ('\n' :: (spaces n ++ (rbrace :: rest)))))))))))) := by
        rw [serEntries_cons_cons]; simp
      have hps := parseStr_plain hplaink
        (':' :: (' ' :: (serVal ind v ++
          (',' :: ('\n' :: (spaces ind ++ (serEntries ind (.cons k2 v2 o2) ++
            ('\n' :: (spaces n ++ (rbrace :: rest))))))))))
      have hsv : skipWs (' ' :: (serVal ind v ++
          (',' :: ('\n' :: (spaces ind ++ (serEntries ind (.cons k2 v2 o2) ++
            ('\n' :: (spaces n ++ (rbrace :: rest))))))))) =
          serVal ind v ++
            (',' :: ('\n' :: (spaces ind ++ (serEntries ind (.cons k2 v2 o2) ++
              ('\n' :: (spaces n ++ (rbrace :: rest))))))) := by
        rw [skipWs_ws (by decide), skipWs_serVal]
      have hV := ihV ind v
        (',' :: ('\n' :: (spaces ind ++ (serEntries ind (.cons k2 v2 o2) ++
          ('\n' :: (spaces n ++ (rbrace :: rest))))))) hv
        (by omega) (by rw [noDigitHeadB_cons]; decide)
      have hsk2 : skipWs ('\n' :: (spaces ind ++ (serEntries ind (.cons k2 v2 o2) ++
          ('\n' :: (spaces n ++ (rbrace :: rest)))))) =
          serEntries ind (.cons k2 v2 o2) ++
            ('\n' :: (spaces n ++ (rbrace :: rest))) := by
        rw [skipWs_ws (by decide), skipWs_spaces, skipWs_serEntries_cons]
      have hE2 := ihE ind n k2 v2 o2 rest ho (by
        have he : sizeO (.cons k2 v2 o2) = 1 + sizeV v2 + sizeO o2 := rfl
        have he2 : sizeO (.cons k v (.cons k2 v2 o2)) =
            1 + sizeV v + sizeO (.cons k2 v2 o2) := rfl
        omega)
      rw [hshape, parseEntries_succ]
      simp only [if_pos (rfl : ('"' : Char) = '"'), escStr_plain hplaink, hps,
        skipWs_not_ws (show isWs ':' = false by decide),
        if_pos (rfl : (':' : Char) = ':'), hsv, hV,
        skipWs_not_ws (show isWs ',' = false by decide),
        if_pos (rfl : (',' : Char) = ','), hsk2, hE2, asString_toList, if_true]

theorem parse_ser : ∀ fuel : Nat,
    (∀ (ind : Nat) (j : JVal) (rest : List Char), wfV j = true →
        sizeV j ≤ fuel → noDigitHeadB rest = true →
        parseVal fuel (serVal ind j ++ rest) = some (j, rest)) ∧
    (∀ (ind n : Nat) (k : String) (v : JVal) (o : JObj) (rest : List Char),
        wfO (.cons k v o) = true → sizeO (.cons k v o) ≤ fuel →
        parseEntries fuel
          (serEntries ind (.cons k v o) ++
            ('\n' :: (spaces n ++ (rbrace :: rest))))
          = some (.cons k v o, rest)) := by
  intro fuel
  induction fuel with
  | zero =>
      constructor
      · intro ind j rest _ hs _
        exact absurd hs (by have := sizeV_pos j; omega)
      · intro ind n k v o rest _ hs
        exact absurd hs (by have := sizeO_pos (.cons k v o); omega)
  | succ fuel ih =>
      obtain ⟨ihV, ihE⟩ := ih
      constructor
      · intro ind j rest hwf hs hr
        cases j with
        | str s => exact valStr fuel ind s rest hwf
        | num i => exact valNum fuel ind i rest hr
        | obj o =>
            cases o with
            | nil => exact valObjNil fuel ind rest
            | cons k v o2 =>
                exact valObjCons fuel ind k v o2 rest hwf hs
                  (fun ind2 n k2 v2 o2 r2 h1 h2 => ihE ind2 n k2 v2 o2 r2 h1 h2)
      · intro ind n k v o rest hwf hs
        exact entStep fuel ind k v o n rest hwf hs ihV
          (fun ind2 n2 k2 v2 o2 r2 h1 h2 => ihE ind2 n2 k2 v2 o2 r2 h1 h2)

theorem spaces_length (n : Nat) : (spaces n).length = n := by
  simp [spaces]

theorem size_le_len : ∀ m : Nat,
    (∀ (ind : Nat) (j : JVal), sizeV j ≤ m →
        sizeV j ≤ (serVal ind j).length) ∧
    (∀ (ind : Nat) (k : String) (v : JVal) (o : JObj),
        sizeO (.cons k v o) ≤ m →
        sizeO (.cons k v o) ≤ (serEntries ind (.cons k v o)).length) := by
  intro m
  induction m with
  | zero =>
      constructor
      · intro ind j hs
        exact absurd hs (by have := sizeV_pos j; omega)
      · intro ind k v o hs
        exact absurd hs (by have := sizeO_pos (.cons k v o); omega)
  | succ m ih =>
      obtain ⟨ihV, ihE⟩ := ih
      constructor
      · intro ind j hs
        cases j with
        | str s =>
            have h1 : sizeV (.str s) = 1 := rfl
            have h2 : serVal ind (.str s) =
                '"' :: escStr s.toList ++ ['"'] := rfl
            rw [h1, h2]
            simp
        | num i =>
            have h1 : sizeV (.num i) = 1 := rfl
            have h2 : serVal ind (.num i) = intChars i := rfl
            rw [h1, h2, intChars]
            split
            · simp
            · have := natDigits_ne_nil i.toNat
              have hlen : 0 < (natDigits i.toNat).length :=
                List.length_pos.mpr this
              omega
        | obj o =>
            cases o with
            | nil =>
                have h1 : sizeV (.obj .nil) = 2 := rfl
                have h2 : serVal ind (.obj .nil) = [lbrace, rbrace] := rfl
                rw [h1, h2]
                simp
            | cons k v o2 =>
                have h1 : sizeV (.obj (.cons k v o2)) =
                    1 + sizeO (.cons k v o2) := rfl
                have h2 : serVal ind (.obj (.cons k v o2)) =
                    lbrace :: '\n' :: spaces (ind + 2) ++
                      serEntries (ind + 2) (.cons k v o2) ++
                        '\n' :: spaces ind ++ [rbrace] := rfl
                have he := ihE (ind + 2) k v o2 (by rw [h1] at hs; omega)
                rw [h1, h2]
                simp [spaces_length]
                omega
      · intro ind k v o hs
        have h1 : sizeO (.cons k v o) = 1 + sizeV v + sizeO o := rfl
        have hv := ihV ind v (by rw [h1] at hs; have := sizeO_pos o; omega)
        cases o with
        | nil =>
            have h2 : serEntries ind (.cons k v .nil) =
                '"' :: escStr k.toList ++ '"' :: ':' :: ' ' :: serVal ind v :=
              rfl
            have h3 : sizeO (JObj.nil) = 1 := rfl
            rw [h1, h2, h3]
            simp
            omega
        | cons k2 v2 o2 =>
            have h2 : serEntries ind (.cons k v (.cons k2 v2 o2)) =
                '"' :: escStr k.toList ++ '"' :: ':' :: ' ' :: serVal ind v ++
                  ',' :: '\n' :: spaces ind ++
                    serEntries ind (.cons k2 v2 o2) := rfl
            have he := ihE ind k2 v2 o2 (by
              rw [h1] at hs
              have hh : sizeO (.cons k2 v2 o2) = 1 + sizeV v2 + sizeO o2 := rfl
              have := sizeV_pos v
              omega)
            rw [h1, h2]
            simp [spaces_length]
            omega

theorem loads_dumps {j : JVal} (h : wfV j = true) : loads (dumps j) = some j := by
  have hlen : sizeV j ≤ (serVal 0 j).length :=
    (size_le_len (sizeV j)).1 0 j le_rfl
  have hmain := (parse_ser ((serVal 0 j).length + 1)).1 0 j [] h
    (by omega) (by rfl)
  rw [List.append_nil] at hmain
  have hloads : loads (dumps j) =
      (match parseVal ((serVal 0 j).length + 1) (serVal 0 j) with
      | some p => if skipWs p.2 = [] then some p.1 else none
      | none => none) := rfl
  rw [hloads, hmain]
  simp [skipWs]

/-! ### The claims -/


/-- C1: for every choice of the four optional arguments, the builder
returns a record with exactly the top-level keys version, type, timestamp and
data, where `version` is the constant "1.0", `type` is the constant
"droplink_qr_login", `timestamp` is the clock reading taken at the call, and
the nested `data` object holds exactly gotifyServerUrl, appToken, clientToken
and serverName set to the given arguments; omitting arguments means using the
fixed sample defaults.  The builder is a total pure function by
construction. -/
theorem generate_qr_data_spec (now : Int) (u a c s : String) :
    (generate_qr_data now u a c s).topKeys =
      ["version", "type", "timestamp", "data"] ∧
    (generate_qr_data now u a c s).get? "version" = some (.str "1.0") ∧
    (generate_qr_data now u a c s).get? "type" =
      some (.str "droplink_qr_login") ∧
    (generate_qr_data now u a c s).get? "timestamp" = some (.num now) ∧
    (generate_qr_data now u a c s).get? "data" =
      some (.obj (.cons "gotifyServerUrl" (.str u) (.cons "appToken" (.str a)
        (.cons "clientToken" (.str c)
          (.cons "serverName" (.str s) .nil))))) ∧
    generate_qr_data_default now =
      generate_qr_data now default_gotify_url default_app_token
        default_client_token default_server_name :=
  ⟨rfl, rfl, rfl, rfl, rfl, rfl⟩

/-- C2: the driver's output is exactly a fixed header, then five blocks in
order, each consisting of a numbered banner, a separator line and the
indented-JSON dump of one builder result with exactly one mutation per call
(none; backdated timestamp; replaced type; two deleted data sub-fields;
substitute token arguments), then a fixed footer.  The driver produces
nothing but these printed lines. -/
theorem mainLines_spec (clock : Nat → Int) :
    mainLines clock =
      [sep60, "Droplink 二维码登录测试数据生成器", sep60, ""] ++
      ["【1】有效的二维码数据（5 分钟有效期）：", dash60,
        dumps (record1 clock), ""] ++
      ["【2】过期的二维码数据（用于测试过期验证）：", dash60,
        dumps (record2 clock), ""] ++
      ["【3】错误类型的二维码数据（用于测试类型验证）：", dash60,
        dumps (record3 clock), ""] ++
      ["【4】缺少必需字段的二维码数据（用于测试字段验证）：", dash60,
        dumps (record4 clock), ""] ++
      ["【5】无效 Token 的二维码数据（用于测试 Token 验证）：", dash60,
        dumps (record5 clock), ""] ++
      [sep60, "提示：",
       "1. 复制上面的 JSON 数据到在线二维码生成器",
       "2. 推荐使用：https://www.qr-code-generator.com/",
       "3. 或使用：https://www.qrcode-monkey.com/",
       "4. 生成二维码后，使用 Droplink 应用扫描测试",
       sep60] := rfl

/-- C3: all five records carry `version` = "1.0"; records 1, 2, 4 and 5
carry `type` = "droplink_qr_login", while the third ("wrong type") record
carries `type` = "other_app_qr_code", which differs from that constant. -/
theorem records_version_type (clock : Nat → Int) :
    (record1 clock).get? "version" = some (.str "1.0") ∧
    (record2 clock).get? "version" = some (.str "1.0") ∧
    (record3 clock).get? "version" = some (.str "1.0") ∧
    (record4 clock).get? "version" = some (.str "1.0") ∧
    (record5 clock).get? "version" = some (.str "1.0") ∧
    (record1 clock).get? "type" = some (.str "droplink_qr_login") ∧
    (record2 clock).get? "type" = some (.str "droplink_qr_login") ∧
    (record3 clock).get? "type" = some (.str "other_app_qr_code") ∧
    ("other_app_qr_code" : String) ≠ "droplink_qr_login" ∧
    (record4 clock).get? "type" = some (.str "droplink_qr_login") ∧
    (record5 clock).get? "type" = some (.str "droplink_qr_login") :=
  ⟨rfl, rfl, rfl, rfl, rfl, rfl, rfl, rfl, by decide, rfl, rfl⟩

/-- C4: the expired record's timestamp equals the clock reading taken when
`expired_timestamp` was computed minus six minutes, which is strictly less
than that reading minus five minutes (300000 ms). -/
theorem record2_expired (clock : Nat → Int) :
    (record2 clock).get? "timestamp" =
      some (.num (clock 1 - 6 * 60 * 1000)) ∧
    clock 1 - 6 * 60 * 1000 < clock 1 - 5 * 60 * 1000 :=
  ⟨rfl, by omega⟩

/-- C5: the "missing fields" record's nested data object consists of exactly
the two keys gotifyServerUrl and serverName with their default values
unchanged, and lacks appToken and clientToken. -/
theorem record4_missing_fields (clock : Nat → Int) :
    (record4 clock).get? "data" =
      some (.obj (.cons "gotifyServerUrl" (.str default_gotify_url)
        (.cons "serverName" (.str default_server_name) .nil))) ∧
    (record4 clock).dataField "appToken" = none ∧
    (record4 clock).dataField "clientToken" = none ∧
    (record4 clock).dataField "gotifyServerUrl" =
      some (.str "http://111.228.1.24:2345") ∧
    (record4 clock).dataField "serverName" = some (.str "测试服务器") :=
  ⟨rfl, rfl, rfl, rfl, rfl⟩

/-- C6: the "invalid token" record's appToken is "INVALID_APP_TOKEN", which
differs from the default valid constant "A1B2C3D4E5F6G7H8", and its
clientToken is "INVALID_CLIENT_TOKEN", which differs from the default valid
constant "X9Y8Z7W6V5U4T3S2". -/
theorem record5_invalid_tokens (clock : Nat → Int) :
    (record5 clock).dataField "appToken" =
      some (.str "INVALID_APP_TOKEN") ∧
    ("INVALID_APP_TOKEN" : String) ≠ default_app_token ∧
    (record5 clock).dataField "clientToken" =
      some (.str "INVALID_CLIENT_TOKEN") ∧
    ("INVALID_CLIENT_TOKEN" : String) ≠ default_client_token ∧
    default_app_token = "A1B2C3D4E5F6G7H8" ∧
    default_client_token = "X9Y8Z7W6V5U4T3S2" :=
  ⟨rfl, by decide, rfl, by decide, rfl, rfl⟩

/-- C7: for every one of the five records the driver prints, parsing the
serialized JSON text back succeeds and returns exactly the record that was
serialized (round trip). -/
theorem mainRecords_roundtrip (clock : Nat → Int) :
    ∀ r ∈ mainRecords clock, loads (dumps r) = some r := by
  intro r hr
  simp only [mainRecords, List.mem_cons, List.not_mem_nil, or_false] at hr
  rcases hr with rfl | rfl | rfl | rfl | rfl
  · exact loads_dumps rfl
  · exact loads_dumps rfl
  · exact loads_dumps rfl
  · exact loads_dumps rfl
  · exact loads_dumps rfl

/-- C7 witness: the round trip at a concrete clock and the first record. -/
theorem mainRecords_roundtrip_witness :
    record1 (fun _ => 0) ∈ mainRecords (fun _ => 0) ∧
    loads (dumps (record1 (fun _ => 0))) = some (record1 (fun _ => 0)) :=
  ⟨List.mem_cons_self _ _,
    mainRecords_roundtrip (fun _ => 0) _ (List.mem_cons_self _ _)⟩

/-- C8: each variant comes from an independent builder call, so the
mutations applied to one variant leave every other record unchanged: the
first record equals a pristine default builder result with all default
contents intact, and each mutated record agrees with a fresh builder call on
every field other than the one its own mutation touched. -/
theorem records_independent (clock : Nat → Int) :
    record1 clock = generate_qr_data_default (clock 0) ∧
    (record1 clock).get? "version" = some (.str "1.0") ∧
    (record1 clock).get? "type" = some (.str "droplink_qr_login") ∧
    (record1 clock).get? "timestamp" = some (.num (clock 0)) ∧
    (record1 clock).get? "data" =
      some (.obj (.cons "gotifyServerUrl" (.str default_gotify_url)
        (.cons "appToken" (.str default_app_token)
          (.cons "clientToken" (.str default_client_token)
            (.cons "serverName" (.str default_server_name) .nil))))) ∧
    (record2 clock).get? "version" =
      (generate_qr_data_default (clock 2)).get? "version" ∧
    (record2 clock).get? "type" =
      (generate_qr_data_default (clock 2)).get? "type" ∧
    (record2 clock).get? "data" =
      (generate_qr_data_default (clock 2)).get? "data" ∧
    (record3 clock).get? "version" =
      (generate_qr_data_default (clock 3)).get? "version" ∧
    (record3 clock).get? "timestamp" = some (.num (clock 3)) ∧
    (record3 clock).get? "data" =
      (generate_qr_data_default (clock 3)).get? "data" ∧
    (record4 clock).get? "version" =
      (generate_qr_data_default (clock 4)).get? "version" ∧
    (record4 clock).get? "type" =
      (generate_qr_data_default (clock 4)).get? "type" ∧
    (record4 clock).get? "timestamp" = some (.num (clock 4)) :=
  ⟨rfl, rfl, rfl, rfl, rfl, rfl, rfl, rfl, rfl, rfl, rfl, rfl, rfl, rfl⟩

/-- C9: in the "invalid token" record every field other than the two
substituted tokens keeps its default: gotifyServerUrl is
"http://111.228.1.24:2345", serverName is the default constant
"测试服务器", and version and type equal their fixed constants. -/
theorem record5_frame (clock : Nat → Int) :
    (record5 clock).dataField "gotifyServerUrl" =
      some (.str "http://111.228.1.24:2345") ∧
    (record5 clock).dataField "serverName" =
      some (.str default_server_name) ∧
    default_server_name = "测试服务器" ∧
    (record5 clock).get? "version" = some (.str "1.0") ∧
    (record5 clock).get? "type" = some (.str "droplink_qr_login") :=
  ⟨rfl, rfl, rfl, rfl, rfl⟩

/-- C10: the builder is deterministic up to the clock: two calls with equal
arguments and an equal wall-clock reading return equal records. -/
theorem generate_qr_data_deterministic (now1 now2 : Int)
    (u1 a1 c1 s1 u2 a2 c2 s2 : String)
    (hn : now1 = now2) (hu : u1 = u2) (ha : a1 = a2) (hc : c1 = c2)
    (hs : s1 = s2) :
    generate_qr_data now1 u1 a1 c1 s1 = generate_qr_data now2 u2 a2 c2 s2 := by
  rw [hn, hu, ha, hc, hs]

/-- C10 witness: determinism applied at a concrete reading and concrete
arguments. -/
theorem generate_qr_data_deterministic_witness :
    (0 : Int) = 0 ∧ ("x" : String) = "x" ∧
    generate_qr_data 0 "x" "y" "z" "w" = generate_qr_data 0 "x" "y" "z" "w" :=
  ⟨rfl, rfl,
    generate_qr_data_deterministic 0 0 "x" "y" "z" "w" "x" "y" "z" "w"
      rfl rfl rfl rfl rfl⟩
